import Mathlib

/-!
Verification of playwright-bdd's test-file generator (src/gen/index.ts) and of
the cucumber messages builder (src/reporter/cucumber/messagesBuilder/Builder.ts),
shallowly embedded in Lean.

Conventions of the embedding:
* `exit(...)` (src/utils/exit.ts) aborts the whole generation pass; the pass is
  therefore modelled in the `Except GenError` monad, an `exit` call becoming an
  `Except.error` that short-circuits every later step, in particular the
  file-system mutations (`clearOutputDir`, `saveFiles`) that come after all
  checks in `TestFilesGenerator.generate`.
* Absolute file paths are modelled as lists of path segments (the result of
  node's `path.resolve`); `path.resolve`, `path.relative` and the final string
  join of node:path are embedded over those lists.  JavaScript string
  operations used by the source (`String.prototype.startsWith`, `join`,
  template literals) are embedded over `List Char` / `String`.
* Collaborators that the generator / builder only calls (TestFile.build,
  Meta/GherkinDocuments/Pickles/Hook message builders, the snippets printer)
  are abstract inputs: function-valued fields of the input structures.
-/

namespace PlaywrightBdd

/-! ### node:path over segment lists -/

/-- Segment-level normalisation performed by node's `path.resolve`: a `"."`
segment is dropped, a `".."` segment removes the previous segment. -/
def normalizeSegs (segs : List String) : List String :=
  segs.foldl
    (fun acc s =>
      if s = "." then acc
      else if s = ".." then acc.dropLast
      else acc ++ [s])
    []

/-- `path.resolve(base, rel)` for a relative `rel` and an absolute `base`. -/
def resolvePath (base rel : List String) : List String :=
  normalizeSegs (base ++ rel)

/-- `path.relative(from, to)` on already-resolved absolute segment lists:
strip the common prefix, then go up once per remaining `from` segment. -/
def relativeSegs : List String → List String → List String
  | f :: fs, t :: ts =>
    if f = t then relativeSegs fs ts
    else List.replicate (fs.length + 1) ".." ++ (t :: ts)
  | [], ts => ts
  | fs, [] => List.replicate fs.length ".."

/-- Join path segments with `/` (how node renders a relative path). -/
def joinSegs : List String → String
  | [] => ""
  | [s] => s
  | s :: rest => s ++ "/" ++ joinSegs rest

/-- Render an absolute segment list as the usual `/`-rooted path string. -/
def absStr (segs : List String) : String :=
  "/" ++ joinSegs segs

/-- JavaScript `hay.startsWith(needle)`, over the characters of the strings. -/
def strStartsWith (hay needle : String) : Bool :=
  needle.data.isPrefixOf hay.data

/-- A segment list with no `"."` or `".."` segments (an already-normalised
absolute path, as `normalizeSegs` produces). -/
def NormSegs (p : List String) : Prop :=
  ∀ s ∈ p, s ≠ "." ∧ s ≠ ".."

instance (p : List String) : Decidable (NormSegs p) := by
  unfold NormSegs; infer_instance

/-! ### JavaScript string search helpers (`includes`, `join`) -/

/-- Does `needle` occur as a contiguous subsequence of `hay`?
(JavaScript `hay.includes(needle)` over code units.) -/
def containsSeq (needle : List Char) : List Char → Bool
  | [] => needle.isEmpty
  | c :: rest => needle.isPrefixOf (c :: rest) || containsSeq needle rest

/-- JavaScript `hay.includes(needle)` on strings. -/
def strIncludes (hay needle : String) : Bool :=
  containsSeq needle.data hay.data

/-- JavaScript `lines.join('\n')`. -/
def joinLines : List String → String
  | [] => ""
  | [s] => s
  | s :: rest => s ++ "\n" ++ joinLines rest

/-! ### The generator (src/gen/index.ts) -/

/-- The parts of `BDDConfig` the generation pass reads, with the directories
already resolved to absolute segment lists (src/config/index.ts resolves
`outputDir` against the Playwright config dir). -/
structure GenConfig where
  configDir : List String
  featuresRoot : List String
  outputDir : List String
  importTestFrom : Option String
deriving DecidableEq

/-- A parse error reported by the gherkin loader (external collaborator).
`handleParseErrors` reads `source.uri` and `message`; the loader's error also
carries a source location, kept here as `location` to state what the emitted
message does and does not include. -/
structure ParseError where
  uri : String
  location : String
  message : String
deriving DecidableEq

/-- A loaded gherkin document: `doc.uri` is relative to the config dir
(comment at src/gen/index.ts:106). -/
structure GherkinDoc where
  uri : List String
deriving DecidableEq

/-- What `new TestFile({...}).build()` (external collaborator) computes for one
document: how many tests it holds after tag filtering, and its undefined
steps. -/
structure BuiltFile where
  testCount : Nat
  undefinedSteps : List String
deriving DecidableEq

/-- A built test file as the generator's `files` list holds it. -/
structure TestFile where
  outputPath : String
  testCount : Nat
  undefinedSteps : List String
deriving DecidableEq

/-- The ways `TestFilesGenerator` calls `exit(...)`. -/
inductive GenError where
  | parseErrors (message : String)
  | featureOutsideRoot (featureFile : String) (featuresRoot : String)
  | undefinedStepsFound
  | importTestFromMissing
deriving DecidableEq

/-- One generation pass's inputs: configuration, what the loaders returned,
and the external collaborators (`TestFile.build`, `hasCustomTest` from
createBdd, the glob of pre-existing generated files that `clearOutputDir`
removes). -/
structure GenInput where
  config : GenConfig
  parseErrors : List ParseError
  docs : List GherkinDoc
  build : GherkinDoc → BuiltFile
  hasCustomTest : Bool
  existingSpecFiles : List String

/-- The template literal of `handleParseErrors` (src/gen/index.ts:181). -/
def parseErrorLine (e : ParseError) : String :=
  "Parse error in \"" ++ e.uri ++ "\" " ++ e.message

/-- `handleParseErrors` (src/gen/index.ts:176-186): a non-empty parse-error
list exits with the joined per-error messages. -/
def handleParseErrors (inp : GenInput) : Except GenError Unit :=
  if inp.parseErrors.length ≠ 0 then
    Except.error (GenError.parseErrors (joinLines (inp.parseErrors.map parseErrorLine)))
  else
    Except.ok ()

/-- `getSpecPathByFeaturePath` (src/gen/index.ts:116-130). -/
def getSpecPathByFeaturePath (config : GenConfig) (relFeaturePath : List String) :
    Except GenError String :=
  let absFeaturePath := resolvePath config.configDir relFeaturePath
  let relOutputPath := relativeSegs config.featuresRoot absFeaturePath
  if strStartsWith (joinSegs relOutputPath) ".." then
    Except.error (GenError.featureOutsideRoot (absStr absFeaturePath) (absStr config.featuresRoot))
  else
    Except.ok (absStr (resolvePath config.outputDir relOutputPath) ++ ".spec.js")

/-- The map step of `buildFiles` (src/gen/index.ts:100-112): build one
`TestFile` per document, aborting if the output path derivation exits. -/
def buildFilesList (inp : GenInput) : List GherkinDoc → Except GenError (List TestFile)
  | [] => Except.ok []
  | gherkinDocument :: rest =>
    match getSpecPathByFeaturePath inp.config gherkinDocument.uri with
    | Except.error e => Except.error e
    | Except.ok outputPath =>
      match buildFilesList inp rest with
      | Except.error e => Except.error e
      | Except.ok files =>
        Except.ok
          ({ outputPath := outputPath,
             testCount := (inp.build gherkinDocument).testCount,
             undefinedSteps := (inp.build gherkinDocument).undefinedSteps } :: files)

/-- `buildFiles` (src/gen/index.ts:99-114): build every document's file, then
drop files whose test count is zero. -/
def buildFiles (inp : GenInput) : Except GenError (List TestFile) :=
  match buildFilesList inp inp.docs with
  | Except.error e => Except.error e
  | Except.ok files => Except.ok (files.filter (fun file => 0 < file.testCount))

/-- `checkUndefinedSteps` (src/gen/index.ts:132-139): count undefined steps
across all files and exit if there is any. -/
def checkUndefinedSteps (files : List TestFile) : Except GenError Unit :=
  let undefinedSteps := files.foldl (fun sum file => sum + file.undefinedSteps.length) 0
  if 0 < undefinedSteps then Except.error GenError.undefinedStepsFound
  else Except.ok ()

/-- `checkImportTestFrom` (src/gen/index.ts:141-148). -/
def checkImportTestFrom (inp : GenInput) : Except GenError Unit :=
  if inp.hasCustomTest && inp.config.importTestFrom.isNone then
    Except.error GenError.importTestFromMissing
  else
    Except.ok ()

/-- What a successful pass does to the file system: `clearOutputDir` removes
the pre-existing generated files, `saveFiles` writes every built file and logs
the generated-file total (src/gen/index.ts:150-164). -/
structure GenSuccess where
  clearedFiles : List String
  savedFiles : List String
  generatedCount : Nat
deriving DecidableEq

/-- `generate` (src/gen/index.ts:40-50): load (handling parse errors), build,
check undefined steps, check importTestFrom, and only then clear the output
dir and save the files.  Any `exit` short-circuits the rest. -/
def generate (inp : GenInput) : Except GenError GenSuccess :=
  match handleParseErrors inp with
  | Except.error e => Except.error e
  | Except.ok _ =>
    match buildFiles inp with
    | Except.error e => Except.error e
    | Except.ok files =>
      match checkUndefinedSteps files with
      | Except.error e => Except.error e
      | Except.ok _ =>
        match checkImportTestFrom inp with
        | Except.error e => Except.error e
        | Except.ok _ =>
          Except.ok
            { clearedFiles := inp.existingSpecFiles,
              savedFiles := files.map (fun file => file.outputPath),
              generatedCount := files.length }

/-- A file-system mutation of the output directory. -/
inductive FsEvent where
  | remove (path : String)
  | save (path : String)
deriving DecidableEq

/-- The file-system mutations a generation pass performs: none on an aborted
pass, the removals of `clearOutputDir` followed by the writes of `saveFiles`
on a completed one. -/
def fsMutations (inp : GenInput) : List FsEvent :=
  match generate inp with
  | Except.ok s => s.clearedFiles.map FsEvent.remove ++ s.savedFiles.map FsEvent.save
  | Except.error _ => []

/-! ### The messages builder (src/reporter/cucumber/messagesBuilder/Builder.ts) -/

/-- Playwright test statuses relevant to the builder. -/
inductive Status where
  | passed
  | failed
  | timedOut
  | skipped
  | interrupted
deriving DecidableEq

/-- A start time (epoch milliseconds) with a duration (milliseconds): the
shape of both a Playwright test result's timing and the builder's
`TimeMeasured`. -/
structure TimeMeasured where
  startTime : Int
  duration : Int
deriving DecidableEq

/-- The fields of a Playwright `TestCase` the builder reads: its stable `id`,
its `expectedStatus`, and the `testDir` of the project it belongs to. -/
structure PwTest where
  id : String
  expectedStatus : Status
  projectTestDir : Option String
deriving DecidableEq

/-- One recorded attempt: the `TestCaseRun` the builder creates in
`onTestEnd` from the (test, result) pair. -/
structure TestCaseRun where
  test : PwTest
  result : TimeMeasured
deriving DecidableEq

/-- The builder's `TestCase`: the logical test identity with its accumulated
ordered run list.  (The source object also carries the project's gherkin
documents for later message building; that data flows only to collaborators
and is left to them here.) -/
structure TestCase where
  id : String
  runs : List TestCaseRun
deriving DecidableEq

/-- `onTestEnd` (Builder.ts:51-64): skip tests of non-bdd projects, skip
tests whose expected status is `skipped`, otherwise append a new
`TestCaseRun`.  `hasBddConfig` (src/config/env.ts, external) is a parameter. -/
def onTestEnd (hasBddConfig : Option String → Bool) (testCaseRuns : List TestCaseRun)
    (test : PwTest) (result : TimeMeasured) : List TestCaseRun :=
  if !hasBddConfig test.projectTestDir then testCaseRuns
  else if test.expectedStatus = Status.skipped then testCaseRuns
  else testCaseRuns ++ [{ test := test, result := result }]

/-- The runs recorded after a sequence of test-end events. -/
def observedRuns (hasBddConfig : Option String → Bool)
    (events : List (PwTest × TimeMeasured)) : List TestCaseRun :=
  events.foldl (fun runs e => onTestEnd hasBddConfig runs e.1 e.2) []

/-- `testCase.addRun(testCaseRun)` on the entry of the insertion-ordered
`testCases` map holding `testId`. -/
def addRunToCase (testCases : List (String × TestCase)) (testId : String)
    (run : TestCaseRun) : List (String × TestCase) :=
  testCases.map (fun p =>
    if p.1 = testId then (p.1, { p.2 with runs := p.2.runs ++ [run] }) else p)

/-- One iteration of `createTestCases` (Builder.ts:109-122):
`getOrCreate` the test's `TestCase` by `test.id` in the insertion-ordered map
(modelled as an association list), then `addRun`. -/
def createTestCasesStep (testCases : List (String × TestCase)) (run : TestCaseRun) :
    List (String × TestCase) :=
  let testId := run.test.id
  match testCases.find? (fun p => p.1 == testId) with
  | some _ => addRunToCase testCases testId run
  | none => addRunToCase (testCases ++ [(testId, { id := testId, runs := [] })]) testId run

/-- `createTestCases` (Builder.ts:109-122) over the recorded runs. -/
def createTestCases (testCaseRuns : List TestCaseRun) : List (String × TestCase) :=
  testCaseRuns.foldl createTestCasesStep []

/-- A protocol timestamp in seconds and nanoseconds. -/
structure Timestamp where
  seconds : Int
  nanos : Int
deriving DecidableEq

/-- Modelled from the spec: `toCucumberTimestamp` lives in
reporter/cucumber/messagesBuilder/timing.ts, which is not among the provided
sources; per the spec, envelopes carry "timestamps in protocol-native units",
i.e. the epoch-milliseconds value split into seconds and nanoseconds. -/
def toCucumberTimestamp (ms : Int) : Timestamp :=
  { seconds := ms / 1000, nanos := ms % 1000 * 1000000 }

/-- Ordering of protocol timestamps. -/
def tsLe (a b : Timestamp) : Prop :=
  a.seconds < b.seconds ∨ (a.seconds = b.seconds ∧ a.nanos ≤ b.nanos)

/-- Modelled from the spec: `calcMinMaxByArray` lives in
reporter/cucumber/messagesBuilder/timing.ts, which is not among the provided
sources; per the spec it derives "the earliest available start time across
all observed attempts" and the total duration spanning to the latest end
time, so that run-finished is "derived additively (start + total
duration)". -/
def calcMinMaxByArray : List TimeMeasured → TimeMeasured
  | [] => { startTime := 0, duration := 0 }
  | x :: xs =>
    let minStart := xs.foldl (fun m i => min m i.startTime) x.startTime
    let maxEnd :=
      xs.foldl (fun m i => max m (i.startTime + i.duration)) (x.startTime + x.duration)
    { startTime := minStart, duration := maxEnd - minStart }

/-- The host's `FullResult`: its aggregate status, and its own
startTime/duration when the Playwright version supplies them
(Builder.ts:197-203). -/
structure FullResult where
  status : Status
  timing : Option TimeMeasured
deriving DecidableEq

/-- `getFullResultTiming` (Builder.ts:195-211): use the host-supplied timing
when present, otherwise calculate overall startTime and duration from the
recorded test timings. -/
def getFullResultTiming (fullResult : FullResult) (testCaseRuns : List TestCaseRun) :
    TimeMeasured :=
  match fullResult.timing with
  | some t => t
  | none => calcMinMaxByArray (testCaseRuns.map (fun r => r.result))

/-- The message-building collaborators of the builder (Meta, GherkinDocuments,
Pickles, Hook, TestCase.buildMessage, TestCaseRun.buildMessages — separate
modules): abstract functions from the builder's state to message payloads. -/
structure Collab where
  metaMessage : String
  sourceMessages : List TestCaseRun → List String
  gherkinDocumentMessages : List TestCaseRun → List String
  pickleMessages : List (String × TestCase) → List String
  hookMessages : List TestCaseRun → List String
  testCaseMessage : TestCase → String
  testCaseRunMessages : TestCaseRun → List String

/-- The builder's `report` object (Builder.ts:20-31), fields in the source's
property order, each field typed by its envelope kind. -/
structure Report where
  meta : Option String
  source : List String
  gherkinDocument : List String
  pickle : List String
  stepDefinition : List String
  hook : List String
  testRunStarted : Option Timestamp
  testCase : List String
  testCaseRuns : List String
  testRunFinished : Option (Bool × Timestamp)

/-- One emitted envelope, tagged by kind. -/
inductive Envelope where
  | meta (m : String)
  | source (s : String)
  | gherkinDocument (d : String)
  | pickle (p : String)
  | stepDefinition (s : String)
  | hook (h : String)
  | testRunStarted (ts : Timestamp)
  | testCase (t : String)
  | testCaseRunEvent (e : String)
  | testRunFinished (success : Bool) (ts : Timestamp)
deriving DecidableEq

/-- `doBuildMessages` (Builder.ts:81-99): create the test cases, then fill
every field of the report.  `addTestRunStarted`/`addTestRunFinished`
(Builder.ts:174-189) use `getFullResultTiming`; `addTestCases` iterates the
insertion-ordered map; `addTestCaseRuns` concatenates each run's messages in
recording order; `report.stepDefinition` is never filled. -/
def doBuildMessages (collab : Collab) (fullResult : FullResult)
    (testCaseRuns : List TestCaseRun) : Report :=
  let testCases := createTestCases testCaseRuns
  let timing := getFullResultTiming fullResult testCaseRuns
  { meta := some collab.metaMessage,
    source := collab.sourceMessages testCaseRuns,
    gherkinDocument := collab.gherkinDocumentMessages testCaseRuns,
    pickle := collab.pickleMessages testCases,
    stepDefinition := [],
    hook := collab.hookMessages testCaseRuns,
    testRunStarted := some (toCucumberTimestamp timing.startTime),
    testCase := testCases.map (fun p => collab.testCaseMessage p.2),
    testCaseRuns := testCaseRuns.foldr (fun run acc => collab.testCaseRunMessages run ++ acc) [],
    testRunFinished :=
      some (fullResult.status == Status.passed,
            toCucumberTimestamp (timing.startTime + timing.duration)) }

/-- `emitMessages` (Builder.ts:101-107): walk the report's fields in property
order, skip null fields, emit array fields element by element. -/
def emitMessages (report : Report) : List Envelope :=
  (report.meta.map Envelope.meta).toList ++
  report.source.map Envelope.source ++
  report.gherkinDocument.map Envelope.gherkinDocument ++
  report.pickle.map Envelope.pickle ++
  report.stepDefinition.map Envelope.stepDefinition ++
  report.hook.map Envelope.hook ++
  (report.testRunStarted.map Envelope.testRunStarted).toList ++
  report.testCase.map Envelope.testCase ++
  report.testCaseRuns.map Envelope.testCaseRunEvent ++
  (report.testRunFinished.map (fun p => Envelope.testRunFinished p.1 p.2)).toList

/-- The position of an envelope's kind in the report's emit order. -/
def kindRank : Envelope → Nat
  | Envelope.meta _ => 0
  | Envelope.source _ => 1
  | Envelope.gherkinDocument _ => 1
  | Envelope.pickle _ => 2
  | Envelope.stepDefinition _ => 3
  | Envelope.hook _ => 3
  | Envelope.testRunStarted _ => 4
  | Envelope.testCase _ => 5
  | Envelope.testCaseRunEvent _ => 6
  | Envelope.testRunFinished _ _ => 7

/-- An envelope sequence whose kinds appear in emit order. -/
def KindOrdered (es : List Envelope) : Prop :=
  es.Pairwise (fun a b => kindRank a ≤ kindRank b)

/-- Is this the test-run-started envelope? -/
def isTestRunStarted : Envelope → Bool
  | Envelope.testRunStarted _ => true
  | _ => false

/-- Is this the test-run-finished envelope? -/
def isTestRunFinished : Envelope → Bool
  | Envelope.testRunFinished _ _ => true
  | _ => false

/-- Is this a test-case envelope? -/
def isTestCaseEnvelope : Envelope → Bool
  | Envelope.testCase _ => true
  | _ => false

/-! ### Lemmas about the path model -/

theorem foldlNorm_normSegs (l : List String) :
    ∀ acc : List String, NormSegs acc →
      NormSegs (l.foldl
        (fun acc s => if s = "." then acc else if s = ".." then acc.dropLast else acc ++ [s])
        acc) := by
  induction l with
  | nil => intro acc h; exact h
  | cons s rest ih =>
    intro acc h
    simp only [List.foldl_cons]
    by_cases h1 : s = "."
    · simpa [h1] using ih acc h
    · by_cases h2 : s = ".."
      · simp only [h1, h2, if_true, if_false]
        refine ih _ ?_
        intro x hx
        exact h x ((List.dropLast_sublist acc).mem hx)
      · simp only [h1, h2, if_false]
        refine ih _ ?_
        intro x hx
        rcases List.mem_append.mp hx with hx | hx
        · exact h x hx
        · rw [List.mem_singleton] at hx
          subst hx
          exact ⟨h1, h2⟩

theorem normSegs_normalizeSegs (l : List String) : NormSegs (normalizeSegs l) :=
  foldlNorm_normSegs l [] (by intro s hs; cases hs)

theorem foldlNorm_eq_append (l : List String) :
    ∀ acc : List String, NormSegs l →
      l.foldl
        (fun acc s => if s = "." then acc else if s = ".." then acc.dropLast else acc ++ [s])
        acc = acc ++ l := by
  induction l with
  | nil => intro acc _; simp
  | cons s rest ih =>
    intro acc h
    have hs := h s (List.mem_cons_self s rest)
    have hrest : NormSegs rest := fun x hx => h x (List.mem_cons_of_mem s hx)
    simp only [List.foldl_cons, hs.1, hs.2, if_false]
    rw [ih (acc ++ [s]) hrest]
    simp

theorem normalizeSegs_eq_self (l : List String) (h : NormSegs l) : normalizeSegs l = l := by
  unfold normalizeSegs
  rw [foldlNorm_eq_append l [] h]
  simp

theorem relativeSegs_append (root rest : List String) :
    relativeSegs root (root ++ rest) = rest := by
  induction root with
  | nil => simp [relativeSegs]
  | cons f fs ih => simpa [relativeSegs] using ih

/-! ### C4: output path derivation -/

/-- C4 (amended): for a feature file resolving to a location under the
configured featuresRoot whose relative path does not start with the two
characters `..`, `getSpecPathByFeaturePath` returns exactly the feature's
path relative to featuresRoot, re-rooted under outputDir, with `.spec.js`
appended.  The derivation is a pure function of the configuration and the
feature path, so repeated runs on unchanged input give identical paths. -/
theorem spec_path_under_root (cfg : GenConfig) (relFeaturePath rest : List String)
    (habs : resolvePath cfg.configDir relFeaturePath = cfg.featuresRoot ++ rest)
    (hout : NormSegs cfg.outputDir)
    (hdd : strStartsWith (joinSegs rest) ".." = false) :
    getSpecPathByFeaturePath cfg relFeaturePath =
      Except.ok (absStr (cfg.outputDir ++ rest) ++ ".spec.js") := by
  have hrest : NormSegs rest := by
    intro s hs
    have hmem : s ∈ cfg.featuresRoot ++ rest := List.mem_append.mpr (Or.inr hs)
    rw [← habs] at hmem
    exact normSegs_normalizeSegs (cfg.configDir ++ relFeaturePath) s hmem
  have hres : resolvePath cfg.outputDir rest = cfg.outputDir ++ rest := by
    unfold resolvePath
    apply normalizeSegs_eq_self
    intro s hs
    rcases List.mem_append.mp hs with h | h
    · exact hout s h
    · exact hrest s h
  simp [getSpecPathByFeaturePath, habs, relativeSegs_append, hdd, hres]

/-- A demonstration configuration: Playwright config dir `/proj`,
featuresRoot `/proj/features`, outputDir `/proj/.features-gen`. -/
def cfgDemo : GenConfig :=
  { configDir := ["proj"],
    featuresRoot := ["proj", "features"],
    outputDir := ["proj", ".features-gen"],
    importTestFrom := none }

/-- C4 witness: for `/proj/features/sub/a.feature` the derived path is
`/proj/.features-gen/sub/a.feature.spec.js`. -/
theorem spec_path_under_root_witness :
    resolvePath cfgDemo.configDir ["features", "sub", "a.feature"] =
      cfgDemo.featuresRoot ++ ["sub", "a.feature"] ∧
    NormSegs cfgDemo.outputDir ∧
    strStartsWith (joinSegs ["sub", "a.feature"]) ".." = false ∧
    getSpecPathByFeaturePath cfgDemo ["features", "sub", "a.feature"] =
      Except.ok "/proj/.features-gen/sub/a.feature.spec.js" :=
  ⟨rfl, by decide, rfl,
    spec_path_under_root cfgDemo ["features", "sub", "a.feature"] ["sub", "a.feature"]
      rfl (by decide) rfl⟩

/-- C4 counterexample: the feature file `/proj/features/..f.feature` lies
under featuresRoot `/proj/features`, yet the code exits instead of deriving
an output path, because the relative path string `..f.feature` starts with
the two characters `..` (src/gen/index.ts:120). -/
theorem spec_path_dotdot_segment_counterexample :
    resolvePath cfgDemo.configDir ["features", "..f.feature"] =
      cfgDemo.featuresRoot ++ ["..f.feature"] ∧
    getSpecPathByFeaturePath cfgDemo ["features", "..f.feature"] =
      Except.error
        (GenError.featureOutsideRoot "/proj/features/..f.feature" "/proj/features") :=
  ⟨rfl, rfl⟩

/-! ### C5: feature outside featuresRoot is fatal -/

theorem buildFilesList_error_of_doc (inp : GenInput) :
    ∀ docs : List GherkinDoc,
      (∃ d ∈ docs, ∃ e, getSpecPathByFeaturePath inp.config d.uri = Except.error e) →
      ∃ e, buildFilesList inp docs = Except.error e := by
  intro docs
  induction docs with
  | nil => rintro ⟨d, hd, _⟩; cases hd
  | cons d0 rest ih =>
    rintro ⟨d, hd, e, he⟩
    rcases List.mem_cons.mp hd with rfl | hmem
    · exact ⟨e, by simp [buildFilesList, he]⟩
    · cases hspec : getSpecPathByFeaturePath inp.config d0.uri with
      | error e0 => exact ⟨e0, by simp [buildFilesList, hspec]⟩
      | ok p =>
        rcases ih ⟨d, hmem, e, he⟩ with ⟨e1, h1⟩
        exact ⟨e1, by simp [buildFilesList, hspec, h1]⟩

theorem generate_error_of_buildFiles_error (inp : GenInput)
    (h : ∃ e, buildFiles inp = Except.error e) :
    ∃ e, generate inp = Except.error e := by
  cases hpe : handleParseErrors inp with
  | error e0 => exact ⟨e0, by simp [generate, hpe]⟩
  | ok u =>
    rcases h with ⟨e, he⟩
    exact ⟨e, by simp [generate, hpe, he]⟩

/-- C5: when a feature file resolves outside featuresRoot (its relative path
starts with `..`), path derivation exits fatally with a message naming both
the offending absolute feature path and featuresRoot, and any generation pass
containing that feature aborts with no file-system mutation, rather than
silently skipping it. -/
theorem spec_path_outside_root_fatal (cfg : GenConfig) (relFeaturePath : List String)
    (h : strStartsWith
        (joinSegs (relativeSegs cfg.featuresRoot (resolvePath cfg.configDir relFeaturePath)))
        ".." = true) :
    getSpecPathByFeaturePath cfg relFeaturePath =
      Except.error
        (GenError.featureOutsideRoot (absStr (resolvePath cfg.configDir relFeaturePath))
          (absStr cfg.featuresRoot)) ∧
    ∀ inp : GenInput, inp.config = cfg → (∃ d ∈ inp.docs, d.uri = relFeaturePath) →
      (∃ e, generate inp = Except.error e) ∧ fsMutations inp = [] := by
  have hpath : getSpecPathByFeaturePath cfg relFeaturePath =
      Except.error
        (GenError.featureOutsideRoot (absStr (resolvePath cfg.configDir relFeaturePath))
          (absStr cfg.featuresRoot)) := by
    simp [getSpecPathByFeaturePath, h]
  refine ⟨hpath, ?_⟩
  rintro inp rfl ⟨d, hd, hduri⟩
  have hbl : ∃ e, buildFilesList inp inp.docs = Except.error e :=
    buildFilesList_error_of_doc inp inp.docs ⟨d, hd, _, by rw [hduri]; exact hpath⟩
  have hbf : ∃ e, buildFiles inp = Except.error e := by
    rcases hbl with ⟨e, he⟩
    exact ⟨e, by simp [buildFiles, he]⟩
  have hgen := generate_error_of_buildFiles_error inp hbf
  refine ⟨hgen, ?_⟩
  rcases hgen with ⟨e, he⟩
  simp [fsMutations, he]

/-- One pass over a single feature file at `/other/f.feature`, reached via a
`..` path from the config dir, with no parse errors and a one-test build. -/
def inpOutside : GenInput :=
  { config := cfgDemo,
    parseErrors := [],
    docs := [{ uri := ["..", "other", "f.feature"] }],
    build := fun _ => { testCount := 1, undefinedSteps := [] },
    hasCustomTest := false,
    existingSpecFiles := ["/proj/.features-gen/old.spec.js"] }

/-- C5 witness: `/other/f.feature` is outside `/proj/features`; derivation
exits naming both paths and the whole pass aborts with no file-system
mutation. -/
theorem spec_path_outside_root_fatal_witness :
    getSpecPathByFeaturePath cfgDemo ["..", "other", "f.feature"] =
      Except.error (GenError.featureOutsideRoot "/other/f.feature" "/proj/features") ∧
    fsMutations inpOutside = [] :=
  ⟨(spec_path_outside_root_fatal cfgDemo ["..", "other", "f.feature"] rfl).1,
    ((spec_path_outside_root_fatal cfgDemo ["..", "other", "f.feature"] rfl).2
      inpOutside rfl ⟨{ uri := ["..", "other", "f.feature"] }, by decide, rfl⟩).2⟩

/-! ### C1: undefined steps abort the pass before any file-system mutation -/

theorem foldl_undefined_count (files : List TestFile) :
    ∀ n : Nat,
      files.foldl (fun sum file => sum + file.undefinedSteps.length) n =
        n + (files.map (fun f => f.undefinedSteps.length)).sum := by
  induction files with
  | nil => intro n; simp
  | cons f rest ih =>
    intro n
    simp only [List.foldl_cons, List.map_cons, List.sum_cons, ih]
    omega

/-- C1: when at least one file of the generator's built file list contains an
undefined step, `generate` aborts with the undefined-steps exit — after
summing undefined steps across all files — and performs no file-system
mutation: `clearOutputDir` and `saveFiles` never run. -/
theorem generate_aborts_on_undefined_steps (inp : GenInput) (files : List TestFile)
    (h0 : inp.parseErrors = [])
    (h1 : buildFiles inp = Except.ok files)
    (h2 : ∃ f ∈ files, f.undefinedSteps ≠ []) :
    generate inp = Except.error GenError.undefinedStepsFound ∧ fsMutations inp = [] := by
  have hp : handleParseErrors inp = Except.ok () := by
    simp [handleParseErrors, h0]
  have hcu : checkUndefinedSteps files = Except.error GenError.undefinedStepsFound := by
    rcases h2 with ⟨f, hf, hne⟩
    have hpos : 0 < (files.map (fun f => f.undefinedSteps.length)).sum :=
      lt_of_lt_of_le (List.length_pos.mpr hne)
        (List.single_le_sum (by intro b _; exact Nat.zero_le b) _
          (List.mem_map_of_mem (fun f => f.undefinedSteps.length) hf))
    simp [checkUndefinedSteps, foldl_undefined_count, hpos]
  have hgen : generate inp = Except.error GenError.undefinedStepsFound := by
    simp [generate, hp, h1, hcu]
  exact ⟨hgen, by simp [fsMutations, hgen]⟩

/-- One pass whose single document builds one test with one undefined step. -/
def inpUndefined : GenInput :=
  { config := cfgDemo,
    parseErrors := [],
    docs := [{ uri := ["features", "a.feature"] }],
    build := fun _ => { testCount := 1, undefinedSteps := ["missing step"] },
    hasCustomTest := false,
    existingSpecFiles := ["/proj/.features-gen/old.spec.js"] }

/-- C1 witness: the pass with an undefined step aborts and mutates nothing,
even though a stale generated file was present to clear. -/
theorem generate_aborts_on_undefined_steps_witness :
    generate inpUndefined = Except.error GenError.undefinedStepsFound ∧
    fsMutations inpUndefined = [] :=
  generate_aborts_on_undefined_steps inpUndefined
    [{ outputPath := "/proj/.features-gen/a.feature.spec.js",
       testCount := 1, undefinedSteps := ["missing step"] }]
    rfl rfl
    ⟨{ outputPath := "/proj/.features-gen/a.feature.spec.js",
       testCount := 1, undefinedSteps := ["missing step"] }, by decide, by decide⟩

/-! ### C6: files with zero tests are dropped, not saved, not counted -/

/-- C6: a built file whose test count is zero is absent from the generator's
file list; on a completed pass exactly the listed files' paths are saved and
the reported generated-file total is the length of that list, so a zero-test
file is neither saved nor counted. -/
theorem build_files_drops_zero_test_files (inp : GenInput) (files : List TestFile)
    (h : buildFiles inp = Except.ok files) :
    (∀ f ∈ files, 0 < f.testCount) ∧
    (∀ s : GenSuccess, generate inp = Except.ok s →
      s.savedFiles = files.map (fun f => f.outputPath) ∧
      s.generatedCount = files.length) := by
  constructor
  · intro f hf
    unfold buildFiles at h
    cases hbl : buildFilesList inp inp.docs with
    | error e => rw [hbl] at h; simp at h
    | ok pre =>
      rw [hbl] at h
      simp only [Except.ok.injEq] at h
      subst h
      have := List.mem_filter.mp hf
      simpa using this.2
  · intro s hs
    cases hpe : handleParseErrors inp with
    | error e => simp [generate, hpe] at hs
    | ok u =>
      cases hcu : checkUndefinedSteps files with
      | error e => simp [generate, hpe, h, hcu] at hs
      | ok u2 =>
        cases hci : checkImportTestFrom inp with
        | error e => simp [generate, hpe, h, hcu, hci] at hs
        | ok u3 =>
          simp only [generate, hpe, h, hcu, hci, Except.ok.injEq] at hs
          subst hs
          exact ⟨rfl, rfl⟩

/-- One pass with two documents: the first builds zero tests (all excluded by
the tag expression), the second builds two. -/
def inpTagged : GenInput :=
  { config := cfgDemo,
    parseErrors := [],
    docs := [{ uri := ["features", "skipped.feature"] }, { uri := ["features", "kept.feature"] }],
    build := fun d =>
      if d.uri = ["features", "skipped.feature"] then { testCount := 0, undefinedSteps := [] }
      else { testCount := 2, undefinedSteps := [] },
    hasCustomTest := false,
    existingSpecFiles := [] }

/-- C6 witness: of the two documents only the one with tests survives; the
completed pass saves exactly its path and reports a total of one file. -/
theorem build_files_drops_zero_test_files_witness :
    buildFiles inpTagged =
      Except.ok
        [{ outputPath := "/proj/.features-gen/kept.feature.spec.js",
           testCount := 2, undefinedSteps := [] }] ∧
    (∀ s : GenSuccess, generate inpTagged = Except.ok s →
      s.savedFiles = ["/proj/.features-gen/kept.feature.spec.js"] ∧
      s.generatedCount = 1) :=
  ⟨rfl,
    (build_files_drops_zero_test_files inpTagged
      [{ outputPath := "/proj/.features-gen/kept.feature.spec.js",
         testCount := 2, undefinedSteps := [] }] rfl).2⟩

/-! ### C9: parse errors abort generation with a collected message -/

theorem str_data_append (s t : String) : (s ++ t).data = s.data ++ t.data := rfl

theorem containsSeq_eq_true_iff (n : List Char) :
    ∀ h : List Char, containsSeq n h = true ↔ ∃ p q, h = p ++ (n ++ q) := by
  intro h
  induction h with
  | nil =>
    simp only [containsSeq, List.isEmpty_iff]
    constructor
    · rintro rfl; exact ⟨[], [], rfl⟩
    · rintro ⟨p, q, hpq⟩
      rcases List.append_eq_nil.mp hpq.symm with ⟨rfl, h2⟩
      rcases List.append_eq_nil.mp h2 with ⟨rfl, rfl⟩
      rfl
  | cons c t ih =>
    simp only [containsSeq, Bool.or_eq_true, List.isPrefixOf_iff_prefix, ih]
    constructor
    · rintro (⟨q, hq⟩ | ⟨p, q, rfl⟩)
      · exact ⟨[], q, hq.symm⟩
      · exact ⟨c :: p, q, rfl⟩
    · rintro ⟨p, q, hp⟩
      cases p with
      | nil => exact Or.inl ⟨q, by simpa using hp.symm⟩
      | cons a p' =>
        rw [List.cons_append] at hp
        injection hp with h1 h2
        exact Or.inr ⟨p', q, h2⟩

theorem strIncludes_of_decomp (hay needle : String) (p q : List Char)
    (h : hay.data = p ++ (needle.data ++ q)) : strIncludes hay needle = true :=
  (containsSeq_eq_true_iff needle.data hay.data).mpr ⟨p, q, h⟩

theorem mem_joinLines_decomp (l : String) :
    ∀ lines : List String, l ∈ lines →
      ∃ p q, (joinLines lines).data = p ++ (l.data ++ q) := by
  intro lines
  induction lines with
  | nil => intro h; cases h
  | cons s rest ih =>
    intro h
    rcases List.mem_cons.mp h with rfl | hmem
    · cases rest with
      | nil => exact ⟨[], [], by simp [joinLines]⟩
      | cons r rs =>
        exact ⟨[], ("\n" ++ joinLines (r :: rs)).data,
          by simp [joinLines, str_data_append]⟩
    · cases rest with
      | nil => cases hmem
      | cons r rs =>
        rcases ih hmem with ⟨p, q, hpq⟩
        refine ⟨(s ++ "\n").data ++ p, q, ?_⟩
        show (s ++ "\n" ++ joinLines (r :: rs)).data = _
        rw [str_data_append, str_data_append, hpq]
        simp

/-- C9 (amended): a non-empty parse-error list makes `generate` abort — the
build/save phases never run and the file system is untouched — with one
joined message that includes every parse error's file uri and every parse
error's message text. -/
theorem parse_errors_abort_generation (inp : GenInput) (h : inp.parseErrors ≠ []) :
    generate inp =
      Except.error (GenError.parseErrors (joinLines (inp.parseErrors.map parseErrorLine))) ∧
    fsMutations inp = [] ∧
    ∀ e ∈ inp.parseErrors,
      strIncludes (joinLines (inp.parseErrors.map parseErrorLine)) e.uri = true ∧
      strIncludes (joinLines (inp.parseErrors.map parseErrorLine)) e.message = true := by
  have hlen : inp.parseErrors.length ≠ 0 := by
    simpa [List.length_eq_zero] using h
  have hp : handleParseErrors inp =
      Except.error (GenError.parseErrors (joinLines (inp.parseErrors.map parseErrorLine))) := by
    simp [handleParseErrors, hlen]
  have hgen : generate inp =
      Except.error (GenError.parseErrors (joinLines (inp.parseErrors.map parseErrorLine))) := by
    simp [generate, hp]
  refine ⟨hgen, by simp [fsMutations, hgen], ?_⟩
  intro e he
  have hline : parseErrorLine e ∈ inp.parseErrors.map parseErrorLine :=
    List.mem_map_of_mem parseErrorLine he
  rcases mem_joinLines_decomp (parseErrorLine e) _ hline with ⟨p, q, hpq⟩
  constructor
  · refine strIncludes_of_decomp _ _ (p ++ "Parse error in \"".data)
      (("\" " ++ e.message).data ++ q) ?_
    rw [hpq]
    show _ = _
    have : (parseErrorLine e).data =
        "Parse error in \"".data ++ (e.uri.data ++ ("\" " ++ e.message).data) := by
      simp [parseErrorLine, str_data_append]
    rw [this]
    simp
  · refine strIncludes_of_decomp _ _
      (p ++ ("Parse error in \"" ++ e.uri ++ "\" ").data) q ?_
    rw [hpq]
    have : (parseErrorLine e).data =
        ("Parse error in \"" ++ e.uri ++ "\" ").data ++ e.message.data := by
      simp [parseErrorLine, str_data_append]
    rw [this]
    simp

/-- One pass whose loader reports two parse errors, each with a source
location the gherkin loader supplies alongside uri and message. -/
def inpParseErrors : GenInput :=
  { config := cfgDemo,
    parseErrors :=
      [{ uri := "a.feature", location := "3:5", message := "unexpected token" },
       { uri := "b.feature", location := "7:1", message := "missing scenario name" }],
    docs := [{ uri := ["features", "a.feature"] }],
    build := fun _ => { testCount := 1, undefinedSteps := [] },
    hasCustomTest := false,
    existingSpecFiles := ["/proj/.features-gen/old.spec.js"] }

/-- C9 witness: both parse errors are reported together in one message
carrying each uri and each message, the pass aborts and nothing is written
or removed. -/
theorem parse_errors_abort_generation_witness :
    generate inpParseErrors =
      Except.error (GenError.parseErrors
        "Parse error in \"a.feature\" unexpected token\nParse error in \"b.feature\" missing scenario name") ∧
    fsMutations inpParseErrors = [] ∧
    strIncludes
      "Parse error in \"a.feature\" unexpected token\nParse error in \"b.feature\" missing scenario name"
      "b.feature" = true :=
  ⟨(parse_errors_abort_generation inpParseErrors (by decide)).1,
    (parse_errors_abort_generation inpParseErrors (by decide)).2.1,
    ((parse_errors_abort_generation inpParseErrors (by decide)).2.2
      { uri := "b.feature", location := "7:1", message := "missing scenario name" }
      (by decide)).1⟩

/-- C9 counterexample: with a single parse error at location `3:5`, the
message `generate` aborts with contains the error's file and message but not
its location — the source template (src/gen/index.ts:181) interpolates only
`source.uri` and `message`. -/
theorem parse_errors_location_counterexample :
    generate
        { config := cfgDemo,
          parseErrors := [{ uri := "a.feature", location := "3:5", message := "unexpected token" }],
          docs := [],
          build := fun _ => { testCount := 1, undefinedSteps := [] },
          hasCustomTest := false,
          existingSpecFiles := [] } =
      Except.error (GenError.parseErrors "Parse error in \"a.feature\" unexpected token") ∧
    strIncludes "Parse error in \"a.feature\" unexpected token" "3:5" = false :=
  ⟨rfl, rfl⟩

/-! ### C7: expected-status-skipped tests contribute nothing -/

/-- C7: a test-end event whose test has expected status `skipped` is not
recorded by `onTestEnd`: it adds no `TestCaseRun` and consequently no
`TestCase` to the aggregation. -/
theorem on_test_end_skips_expected_skipped (hasBddConfig : Option String → Bool)
    (runs : List TestCaseRun) (test : PwTest) (result : TimeMeasured)
    (h : test.expectedStatus = Status.skipped) :
    onTestEnd hasBddConfig runs test result = runs ∧
    createTestCases (onTestEnd hasBddConfig runs test result) = createTestCases runs := by
  have heq : onTestEnd hasBddConfig runs test result = runs := by
    unfold onTestEnd
    rw [h]
    by_cases hb : hasBddConfig test.projectTestDir <;> simp [hb]
  exact ⟨heq, by rw [heq]⟩

/-- C7 witness: a skipped-expected test with bdd config still contributes
zero runs. -/
theorem on_test_end_skips_expected_skipped_witness :
    onTestEnd (fun _ => true) []
        { id := "t1", expectedStatus := Status.skipped, projectTestDir := some "/proj/one" }
        { startTime := 5, duration := 2 } = [] ∧
    createTestCases
        (onTestEnd (fun _ => true) []
          { id := "t1", expectedStatus := Status.skipped, projectTestDir := some "/proj/one" }
          { startTime := 5, duration := 2 }) = createTestCases [] :=
  on_test_end_skips_expected_skipped (fun _ => true) []
    { id := "t1", expectedStatus := Status.skipped, projectTestDir := some "/proj/one" }
    { startTime := 5, duration := 2 } rfl

/-! ### C10: tests of non-bdd projects are ignored -/

/-- C10: a test-end event whose project's testDir carries no BDD
configuration records nothing, whatever its status: the run list is
unchanged, hence the built report — every envelope included — is the same as
if the event had never happened. -/
theorem on_test_end_ignores_non_bdd (hasBddConfig : Option String → Bool)
    (runs : List TestCaseRun) (test : PwTest) (result : TimeMeasured)
    (h : hasBddConfig test.projectTestDir = false) :
    onTestEnd hasBddConfig runs test result = runs ∧
    ∀ (collab : Collab) (fullResult : FullResult),
      emitMessages (doBuildMessages collab fullResult (onTestEnd hasBddConfig runs test result)) =
        emitMessages (doBuildMessages collab fullResult runs) := by
  have heq : onTestEnd hasBddConfig runs test result = runs := by
    unfold onTestEnd
    simp [h]
  exact ⟨heq, fun collab fullResult => by rw [heq]⟩

/-- A trivial collaborator set for witnesses. -/
def collabDemo : Collab :=
  { metaMessage := "meta",
    sourceMessages := fun _ => ["src"],
    gherkinDocumentMessages := fun _ => ["doc"],
    pickleMessages := fun tcs => tcs.map (fun p => p.1),
    hookMessages := fun _ => [],
    testCaseMessage := fun tc => tc.id,
    testCaseRunMessages := fun run => [run.test.id] }

/-- C10 witness: a failed test from a project without BDD config leaves the
recorded runs — and the whole emitted report — unchanged. -/
theorem on_test_end_ignores_non_bdd_witness :
    onTestEnd (fun _ => false) []
        { id := "t2", expectedStatus := Status.passed, projectTestDir := some "/plain" }
        { startTime := 0, duration := 1 } = [] ∧
    emitMessages (doBuildMessages collabDemo { status := Status.passed, timing := none }
        (onTestEnd (fun _ => false) []
          { id := "t2", expectedStatus := Status.passed, projectTestDir := some "/plain" }
          { startTime := 0, duration := 1 })) =
      emitMessages (doBuildMessages collabDemo { status := Status.passed, timing := none } []) :=
  ⟨(on_test_end_ignores_non_bdd (fun _ => false) []
      { id := "t2", expectedStatus := Status.passed, projectTestDir := some "/plain" }
      { startTime := 0, duration := 1 } rfl).1,
    (on_test_end_ignores_non_bdd (fun _ => false) []
      { id := "t2", expectedStatus := Status.passed, projectTestDir := some "/plain" }
      { startTime := 0, duration := 1 } rfl).2 collabDemo
      { status := Status.passed, timing := none }⟩

/-! ### C3: grouping of runs into test cases by test id -/

theorem addRunToCase_keys (tcs : List (String × TestCase)) (testId : String)
    (run : TestCaseRun) :
    (addRunToCase tcs testId run).map Prod.fst = tcs.map Prod.fst := by
  unfold addRunToCase
  rw [List.map_map]
  apply List.map_congr_left
  intro p _
  by_cases h : p.1 = testId <;> simp [h, Function.comp]

theorem createTestCasesStep_none (acc : List (String × TestCase)) (run : TestCaseRun)
    (h : acc.find? (fun p => p.1 == run.test.id) = none) :
    createTestCasesStep acc run =
      acc ++ [(run.test.id, { id := run.test.id, runs := [run] })] := by
  have h1 : ∀ p ∈ acc, p.1 ≠ run.test.id := by
    intro p hp
    simpa using List.find?_eq_none.mp h p hp
  simp only [createTestCasesStep, h]
  unfold addRunToCase
  rw [List.map_append]
  have hmap : acc.map
      (fun p => if p.1 = run.test.id then (p.1, { p.2 with runs := p.2.runs ++ [run] }) else p) =
      acc := by
    have := List.map_congr_left (l := acc)
      (f := fun p : String × TestCase =>
        if p.1 = run.test.id then (p.1, { p.2 with runs := p.2.runs ++ [run] }) else p)
      (g := id) (fun p hp => by simp [h1 p hp])
    simpa using this
  rw [hmap]
  simp

theorem find?_some_key_mem (acc : List (String × TestCase)) (run : TestCaseRun)
    (q : String × TestCase) (h : acc.find? (fun p => p.1 == run.test.id) = some q) :
    run.test.id ∈ acc.map Prod.fst := by
  have h1 : q.1 = run.test.id := by simpa using List.find?_some h
  have h2 := List.mem_of_find?_eq_some h
  exact h1 ▸ List.mem_map_of_mem Prod.fst h2

theorem createTestCases_foldl_inv :
    ∀ (runs : List TestCaseRun) (acc : List (String × TestCase)) (seen : List TestCaseRun),
      (∀ p ∈ acc, p.2.id = p.1 ∧ p.2.runs = seen.filter (fun r => r.test.id == p.1)) →
      (acc.map Prod.fst).Nodup →
      (∀ r ∈ seen, r.test.id ∈ acc.map Prod.fst) →
      (∀ p ∈ acc, p.1 ∈ seen.map (fun r => r.test.id)) →
      (∀ p ∈ runs.foldl createTestCasesStep acc,
          p.2.id = p.1 ∧ p.2.runs = (seen ++ runs).filter (fun r => r.test.id == p.1)) ∧
      ((runs.foldl createTestCasesStep acc).map Prod.fst).Nodup ∧
      (∀ r ∈ seen ++ runs, r.test.id ∈ (runs.foldl createTestCasesStep acc).map Prod.fst) ∧
      (∀ p ∈ runs.foldl createTestCasesStep acc,
          p.1 ∈ (seen ++ runs).map (fun r => r.test.id)) := by
  intro runs
  induction runs with
  | nil =>
    intro acc seen h1 h2 h3 h4
    simp only [List.foldl_nil, List.append_nil]
    exact ⟨h1, h2, h3, h4⟩
  | cons run rest ih =>
    intro acc seen h1 h2 h3 h4
    have hstep :
        (∀ p ∈ createTestCasesStep acc run,
            p.2.id = p.1 ∧ p.2.runs = (seen ++ [run]).filter (fun r => r.test.id == p.1)) ∧
        ((createTestCasesStep acc run).map Prod.fst).Nodup ∧
        (∀ r ∈ seen ++ [run], r.test.id ∈ (createTestCasesStep acc run).map Prod.fst) ∧
        (∀ p ∈ createTestCasesStep acc run,
            p.1 ∈ (seen ++ [run]).map (fun r => r.test.id)) := by
      cases hfind : acc.find? (fun p => p.1 == run.test.id) with
      | some q =>
        have hform : createTestCasesStep acc run = addRunToCase acc run.test.id run := by
          simp only [createTestCasesStep, hfind]
        have hkeys : (createTestCasesStep acc run).map Prod.fst = acc.map Prod.fst := by
          rw [hform]
          exact addRunToCase_keys acc run.test.id run
        refine ⟨?_, by rw [hkeys]; exact h2, ?_, ?_⟩
        · intro p' hp'
          rw [hform] at hp'
          unfold addRunToCase at hp'
          rcases List.mem_map.mp hp' with ⟨p, hp, hgp⟩
          by_cases hid : p.1 = run.test.id
          · rw [if_pos hid] at hgp
            subst hgp
            refine ⟨(h1 p hp).1, ?_⟩
            rw [List.filter_append]
            have hpred : (fun r : TestCaseRun => r.test.id == p.1) run = true := by
              simp [hid]
            simp only [List.filter_cons, hpred, List.filter_nil]
            rw [← (h1 p hp).2]
            simp
          · rw [if_neg hid] at hgp
            subst hgp
            refine ⟨(h1 p hp).1, ?_⟩
            rw [List.filter_append]
            have hpred : (fun r : TestCaseRun => r.test.id == p.1) run = false := by
              simp
              intro hcontra
              exact hid hcontra.symm
            simp only [List.filter_cons, hpred, List.filter_nil]
            rw [← (h1 p hp).2]
            simp
        · intro r hr
          rw [hkeys]
          rcases List.mem_append.mp hr with hr | hr
          · exact h3 r hr
          · rw [List.mem_singleton] at hr
            subst hr
            exact find?_some_key_mem acc r q hfind
        · intro p' hp'
          rw [hform] at hp'
          unfold addRunToCase at hp'
          rcases List.mem_map.mp hp' with ⟨p, hp, hgp⟩
          have hfst : p'.1 = p.1 := by
            by_cases hid : p.1 = run.test.id
            · rw [if_pos hid] at hgp; subst hgp; rfl
            · rw [if_neg hid] at hgp; subst hgp; rfl
          rw [hfst]
          exact List.mem_map.mpr
            (let ⟨r, hr, hre⟩ := List.mem_map.mp (h4 p hp)
             ⟨r, List.mem_append.mpr (Or.inl hr), hre⟩)
      | none =>
        have hnotin : ∀ p ∈ acc, p.1 ≠ run.test.id := by
          intro p hp
          simpa using List.find?_eq_none.mp hfind p hp
        have hform := createTestCasesStep_none acc run hfind
        have hkeynotin : run.test.id ∉ acc.map Prod.fst := by
          intro hmem
          rcases List.mem_map.mp hmem with ⟨p, hp, hpe⟩
          exact hnotin p hp hpe
        refine ⟨?_, ?_, ?_, ?_⟩
        · intro p' hp'
          rw [hform] at hp'
          rcases List.mem_append.mp hp' with hp | hp
          · refine ⟨(h1 p' hp).1, ?_⟩
            rw [List.filter_append]
            have hpred : (fun r : TestCaseRun => r.test.id == p'.1) run = false := by
              simp
              intro hcontra
              exact hnotin p' hp hcontra.symm
            simp only [List.filter_cons, hpred, List.filter_nil]
            rw [← (h1 p' hp).2]
            simp
          · rw [List.mem_singleton] at hp
            subst hp
            refine ⟨rfl, ?_⟩
            rw [List.filter_append]
            have hseen : seen.filter (fun r => r.test.id == run.test.id) = [] := by
              rw [List.filter_eq_nil_iff]
              intro r hr
              simp only [beq_iff_eq]
              intro hcontra
              exact hkeynotin (hcontra ▸ h3 r hr)
            have hpred : (fun r : TestCaseRun => r.test.id == run.test.id) run = true := by
              simp
            simp only [List.filter_cons, hpred, List.filter_nil, hseen]
            rfl
        · rw [hform, List.map_append, List.nodup_append]
          refine ⟨h2, by simp, ?_⟩
          intro a ha hb
          simp at hb
          subst hb
          exact hkeynotin ha
        · intro r hr
          rw [hform, List.map_append]
          rcases List.mem_append.mp hr with hr | hr
          · exact List.mem_append.mpr (Or.inl (h3 r hr))
          · rw [List.mem_singleton] at hr
            subst hr
            exact List.mem_append.mpr (Or.inr (by simp))
        · intro p' hp'
          rw [hform] at hp'
          rcases List.mem_append.mp hp' with hp | hp
          · exact List.mem_map.mpr
              (let ⟨r, hr, hre⟩ := List.mem_map.mp (h4 p' hp)
               ⟨r, List.mem_append.mpr (Or.inl hr), hre⟩)
          · rw [List.mem_singleton] at hp
            subst hp
            exact List.mem_map.mpr ⟨run, List.mem_append.mpr (Or.inr (by simp)), rfl⟩
    have := ih (createTestCasesStep acc run) (seen ++ [run])
      hstep.1 hstep.2.1 hstep.2.2.1 hstep.2.2.2
    simpa [List.append_assoc] using this

theorem observedRuns_all_recorded (hasBddConfig : Option String → Bool) :
    ∀ (events : List (PwTest × TimeMeasured)) (acc : List TestCaseRun),
      (∀ e ∈ events,
        hasBddConfig e.1.projectTestDir = true ∧ e.1.expectedStatus ≠ Status.skipped) →
      events.foldl (fun runs e => onTestEnd hasBddConfig runs e.1 e.2) acc =
        acc ++ events.map (fun e => { test := e.1, result := e.2 }) := by
  intro events
  induction events with
  | nil => intro acc _; simp
  | cons e rest ih =>
    intro acc h
    have he := h e (List.mem_cons_self e rest)
    have hstep : onTestEnd hasBddConfig acc e.1 e.2 = acc ++ [{ test := e.1, result := e.2 }] := by
      unfold onTestEnd
      simp [he.1, he.2]
    simp only [List.foldl_cons, hstep]
    rw [ih _ (fun x hx => h x (List.mem_cons_of_mem e hx))]
    simp

/-- C3: over any sequence of test-end events that `onTestEnd` records, each
event becomes one `TestCaseRun` in observation order; grouping produces
exactly one `TestCase` per distinct test id (keys are duplicate-free and
cover every run's id), and each `TestCase` carries that id with exactly the
runs whose events carried it, in observation order — so events with distinct
ids never share a `TestCase`. -/
theorem create_test_cases_groups_runs (hasBddConfig : Option String → Bool)
    (events : List (PwTest × TimeMeasured))
    (h : ∀ e ∈ events,
      hasBddConfig e.1.projectTestDir = true ∧ e.1.expectedStatus ≠ Status.skipped) :
    observedRuns hasBddConfig events = events.map (fun e => { test := e.1, result := e.2 }) ∧
    ((createTestCases (observedRuns hasBddConfig events)).map Prod.fst).Nodup ∧
    (∀ p ∈ createTestCases (observedRuns hasBddConfig events),
        p.2.id = p.1 ∧
        p.2.runs = (observedRuns hasBddConfig events).filter (fun r => r.test.id == p.1)) ∧
    (∀ r ∈ observedRuns hasBddConfig events,
        r.test.id ∈ (createTestCases (observedRuns hasBddConfig events)).map Prod.fst) ∧
    (∀ p ∈ createTestCases (observedRuns hasBddConfig events),
        p.1 ∈ (observedRuns hasBddConfig events).map (fun r => r.test.id)) := by
  have hobs : observedRuns hasBddConfig events =
      events.map (fun e => { test := e.1, result := e.2 }) := by
    unfold observedRuns
    simpa using observedRuns_all_recorded hasBddConfig events [] h
  have hinv := createTestCases_foldl_inv (observedRuns hasBddConfig events) [] []
    (by intro p hp; cases hp) (by simp) (by intro r hr; cases hr) (by intro p hp; cases hp)
  simp only [List.nil_append] at hinv
  exact ⟨hobs, hinv.2.1, hinv.1, hinv.2.2.1, hinv.2.2.2⟩

/-- A bdd project for the reporter-side witnesses. -/
def hasBddDemo : Option String → Bool := fun _ => true

/-- Three recorded events: two attempts of test `a` (a retry) and one of
test `b`. -/
def eventsDemo : List (PwTest × TimeMeasured) :=
  [({ id := "a", expectedStatus := Status.failed, projectTestDir := some "/proj/one" },
    { startTime := 10, duration := 3 }),
   ({ id := "a", expectedStatus := Status.failed, projectTestDir := some "/proj/one" },
    { startTime := 20, duration := 2 }),
   ({ id := "b", expectedStatus := Status.passed, projectTestDir := some "/proj/one" },
    { startTime := 15, duration := 4 })]

/-- C3 witness: on the concrete retry scenario the grouping invariants hold —
two ordered runs for `a`, one for `b`, one test case per id. -/
theorem create_test_cases_groups_runs_witness :
    observedRuns hasBddDemo eventsDemo =
      eventsDemo.map (fun e => { test := e.1, result := e.2 }) ∧
    ((createTestCases (observedRuns hasBddDemo eventsDemo)).map Prod.fst).Nodup ∧
    (∀ p ∈ createTestCases (observedRuns hasBddDemo eventsDemo),
        p.2.id = p.1 ∧
        p.2.runs = (observedRuns hasBddDemo eventsDemo).filter (fun r => r.test.id == p.1)) ∧
    (∀ r ∈ observedRuns hasBddDemo eventsDemo,
        r.test.id ∈ (createTestCases (observedRuns hasBddDemo eventsDemo)).map Prod.fst) ∧
    (∀ p ∈ createTestCases (observedRuns hasBddDemo eventsDemo),
        p.1 ∈ (observedRuns hasBddDemo eventsDemo).map (fun r => r.test.id)) :=
  create_test_cases_groups_runs hasBddDemo eventsDemo (by decide)

/-! ### C2: emitted envelope sequence ordering -/

theorem pairwise_rank_of_const (l : List Envelope) (n : Nat)
    (h : ∀ a ∈ l, kindRank a = n) :
    l.Pairwise (fun a b => kindRank a ≤ kindRank b) := by
  induction l with
  | nil => exact List.Pairwise.nil
  | cons a t ih =>
    refine List.Pairwise.cons ?_ (ih (fun x hx => h x (List.mem_cons_of_mem a hx)))
    intro b hb
    rw [h a (List.mem_cons_self a t), h b (List.mem_cons_of_mem a hb)]

theorem kindOrdered_append_block (xs ys : List Envelope) (n : Nat)
    (hx : ∀ a ∈ xs, kindRank a = n)
    (hys : ys.Pairwise (fun a b => kindRank a ≤ kindRank b))
    (hlb : ∀ b ∈ ys, n ≤ kindRank b) :
    (xs ++ ys).Pairwise (fun a b => kindRank a ≤ kindRank b) ∧
    (∀ b ∈ xs ++ ys, n ≤ kindRank b) := by
  constructor
  · exact List.pairwise_append.mpr
      ⟨pairwise_rank_of_const xs n hx, hys, fun a ha b hb => (hx a ha) ▸ hlb b hb⟩
  · intro b hb
    rcases List.mem_append.mp hb with hb | hb
    · exact le_of_eq (hx b hb).symm
    · exact hlb b hb

theorem countP_map_eq_zero {α : Type} (p : Envelope → Bool) (f : α → Envelope)
    (l : List α) (h : ∀ a, p (f a) = false) : (l.map f).countP p = 0 := by
  induction l with
  | nil => rfl
  | cons a t ih => simp [List.countP_cons, h, ih]

theorem kindRank_of_isTestRunStarted (e : Envelope) (h : isTestRunStarted e = true) :
    kindRank e = 4 := by
  cases e <;> simp_all [isTestRunStarted, kindRank]

theorem kindRank_of_isTestCaseEnvelope (e : Envelope) (h : isTestCaseEnvelope e = true) :
    kindRank e = 5 := by
  cases e <;> simp_all [isTestCaseEnvelope, kindRank]

/-- C2: for every build, the emitted envelope sequence is ordered by kind
rank (meta, then source/gherkinDocument, then pickle, then
stepDefinition/hook, then testRunStarted, then testCase, then the
per-test-case run envelopes, then testRunFinished); the meta envelope is
first, there is exactly one testRunStarted and exactly one testRunFinished
envelope, every testRunStarted envelope precedes every testCase envelope,
and the last envelope is the testRunFinished one. -/
theorem emit_messages_kind_ordered (collab : Collab) (fullResult : FullResult)
    (runs : List TestCaseRun) :
    KindOrdered (emitMessages (doBuildMessages collab fullResult runs)) ∧
    (emitMessages (doBuildMessages collab fullResult runs)).head? =
      some (Envelope.meta collab.metaMessage) ∧
    (emitMessages (doBuildMessages collab fullResult runs)).countP isTestRunStarted = 1 ∧
    (emitMessages (doBuildMessages collab fullResult runs)).countP isTestRunFinished = 1 ∧
    (∀ (i j : Fin (emitMessages (doBuildMessages collab fullResult runs)).length),
      isTestRunStarted ((emitMessages (doBuildMessages collab fullResult runs)).get i) = true →
      isTestCaseEnvelope ((emitMessages (doBuildMessages collab fullResult runs)).get j) = true →
      (i : Nat) < j) ∧
    (∃ b ts, (emitMessages (doBuildMessages collab fullResult runs)).getLast? =
      some (Envelope.testRunFinished b ts)) := by
  have hes : emitMessages (doBuildMessages collab fullResult runs) =
      [Envelope.meta collab.metaMessage] ++
      ((collab.sourceMessages runs).map Envelope.source ++
       ((collab.gherkinDocumentMessages runs).map Envelope.gherkinDocument ++
        ((collab.pickleMessages (createTestCases runs)).map Envelope.pickle ++
         ((collab.hookMessages runs).map Envelope.hook ++
          ([Envelope.testRunStarted
              (toCucumberTimestamp (getFullResultTiming fullResult runs).startTime)] ++
           ((createTestCases runs).map
              (fun p => Envelope.testCase (collab.testCaseMessage p.2)) ++
            ((runs.foldr (fun run acc => collab.testCaseRunMessages run ++ acc) []).map
               Envelope.testCaseRunEvent ++
             [Envelope.testRunFinished (fullResult.status == Status.passed)
                (toCucumberTimestamp
                  ((getFullResultTiming fullResult runs).startTime +
                   (getFullResultTiming fullResult runs).duration))]))))))) := by
    simp [emitMessages, doBuildMessages]
  have base :
      ([Envelope.testRunFinished (fullResult.status == Status.passed)
          (toCucumberTimestamp
            ((getFullResultTiming fullResult runs).startTime +
             (getFullResultTiming fullResult runs).duration))] :
        List Envelope).Pairwise (fun a b => kindRank a ≤ kindRank b) ∧
      ∀ b ∈ ([Envelope.testRunFinished (fullResult.status == Status.passed)
          (toCucumberTimestamp
            ((getFullResultTiming fullResult runs).startTime +
             (getFullResultTiming fullResult runs).duration))] :
        List Envelope), 7 ≤ kindRank b := by
    constructor
    · simp
    · intro b hb
      rw [List.mem_singleton] at hb
      subst hb
      simp [kindRank]
  have s6 := kindOrdered_append_block
    ((runs.foldr (fun run acc => collab.testCaseRunMessages run ++ acc) []).map
      Envelope.testCaseRunEvent) _ 6
    (by intro a ha; rcases List.mem_map.mp ha with ⟨x, _, rfl⟩; rfl)
    base.1 (fun b hb => le_trans (by norm_num) (base.2 b hb))
  have s5 := kindOrdered_append_block
    ((createTestCases runs).map (fun p => Envelope.testCase (collab.testCaseMessage p.2))) _ 5
    (by intro a ha; rcases List.mem_map.mp ha with ⟨x, _, rfl⟩; rfl)
    s6.1 (fun b hb => le_trans (by norm_num) (s6.2 b hb))
  have s4 := kindOrdered_append_block
    [Envelope.testRunStarted
      (toCucumberTimestamp (getFullResultTiming fullResult runs).startTime)] _ 4
    (by intro a ha; rw [List.mem_singleton] at ha; subst ha; rfl)
    s5.1 (fun b hb => le_trans (by norm_num) (s5.2 b hb))
  have s3 := kindOrdered_append_block ((collab.hookMessages runs).map Envelope.hook) _ 3
    (by intro a ha; rcases List.mem_map.mp ha with ⟨x, _, rfl⟩; rfl)
    s4.1 (fun b hb => le_trans (by norm_num) (s4.2 b hb))
  have s2 := kindOrdered_append_block
    ((collab.pickleMessages (createTestCases runs)).map Envelope.pickle) _ 2
    (by intro a ha; rcases List.mem_map.mp ha with ⟨x, _, rfl⟩; rfl)
    s3.1 (fun b hb => le_trans (by norm_num) (s3.2 b hb))
  have s1b := kindOrdered_append_block
    ((collab.gherkinDocumentMessages runs).map Envelope.gherkinDocument) _ 1
    (by intro a ha; rcases List.mem_map.mp ha with ⟨x, _, rfl⟩; rfl)
    s2.1 (fun b hb => le_trans (by norm_num) (s2.2 b hb))
  have s1a := kindOrdered_append_block ((collab.sourceMessages runs).map Envelope.source) _ 1
    (by intro a ha; rcases List.mem_map.mp ha with ⟨x, _, rfl⟩; rfl)
    s1b.1 s1b.2
  have s0 := kindOrdered_append_block [Envelope.meta collab.metaMessage] _ 0
    (by intro a ha; rw [List.mem_singleton] at ha; subst ha; rfl)
    s1a.1 (fun b hb => le_trans (by norm_num) (s1a.2 b hb))
  have hord : KindOrdered (emitMessages (doBuildMessages collab fullResult runs)) := by
    rw [KindOrdered, hes]
    exact s0.1
  refine ⟨hord, by rw [hes]; rfl, ?_, ?_, ?_, ?_⟩
  · rw [hes]
    simp only [List.countP_append]
    rw [countP_map_eq_zero isTestRunStarted Envelope.source _ (fun a => rfl),
      countP_map_eq_zero isTestRunStarted Envelope.gherkinDocument _ (fun a => rfl),
      countP_map_eq_zero isTestRunStarted Envelope.pickle _ (fun a => rfl),
      countP_map_eq_zero isTestRunStarted Envelope.hook _ (fun a => rfl),
      countP_map_eq_zero isTestRunStarted Envelope.testCaseRunEvent _ (fun a => rfl),
      countP_map_eq_zero isTestRunStarted
        (fun p : String × TestCase => Envelope.testCase (collab.testCaseMessage p.2)) _
        (fun a => rfl)]
    rfl
  · rw [hes]
    simp only [List.countP_append]
    rw [countP_map_eq_zero isTestRunFinished Envelope.source _ (fun a => rfl),
      countP_map_eq_zero isTestRunFinished Envelope.gherkinDocument _ (fun a => rfl),
      countP_map_eq_zero isTestRunFinished Envelope.pickle _ (fun a => rfl),
      countP_map_eq_zero isTestRunFinished Envelope.hook _ (fun a => rfl),
      countP_map_eq_zero isTestRunFinished Envelope.testCaseRunEvent _ (fun a => rfl),
      countP_map_eq_zero isTestRunFinished
        (fun p : String × TestCase => Envelope.testCase (collab.testCaseMessage p.2)) _
        (fun a => rfl)]
    rfl
  · intro i j hi hj
    rcases lt_trichotomy (i : Nat) (j : Nat) with h | h | h
    · exact h
    · exfalso
      have hij : i = j := Fin.ext h
      subst hij
      have h4 := kindRank_of_isTestRunStarted _ hi
      have h5 := kindRank_of_isTestCaseEnvelope _ hj
      omega
    · exfalso
      have hpair := (List.pairwise_iff_get.mp hord) j i h
      rw [kindRank_of_isTestRunStarted _ hi, kindRank_of_isTestCaseEnvelope _ hj] at hpair
      omega
  · refine ⟨fullResult.status == Status.passed,
      toCucumberTimestamp
        ((getFullResultTiming fullResult runs).startTime +
         (getFullResultTiming fullResult runs).duration), ?_⟩
    rw [hes]
    simp only [← List.append_assoc]
    exact List.getLast?_concat _

/-! ### C8: run timing -/

theorem foldl_min_le_init (xs : List TimeMeasured) :
    ∀ m : Int, xs.foldl (fun a i => min a i.startTime) m ≤ m := by
  induction xs with
  | nil => intro m; exact le_refl m
  | cons x t ih =>
    intro m
    simp only [List.foldl_cons]
    exact le_trans (ih (min m x.startTime)) (min_le_left m x.startTime)

theorem foldl_min_le_mem (xs : List TimeMeasured) (r : TimeMeasured) (hr : r ∈ xs) :
    ∀ m : Int, xs.foldl (fun a i => min a i.startTime) m ≤ r.startTime := by
  induction xs with
  | nil => cases hr
  | cons x t ih =>
    intro m
    simp only [List.foldl_cons]
    rcases List.mem_cons.mp hr with rfl | hmem
    · exact le_trans (foldl_min_le_init t (min m r.startTime)) (min_le_right m r.startTime)
    · exact ih hmem (min m x.startTime)

theorem foldl_min_eq_init_or_mem (xs : List TimeMeasured) :
    ∀ m : Int, xs.foldl (fun a i => min a i.startTime) m = m ∨
      ∃ r ∈ xs, xs.foldl (fun a i => min a i.startTime) m = r.startTime := by
  induction xs with
  | nil => intro m; exact Or.inl rfl
  | cons x t ih =>
    intro m
    simp only [List.foldl_cons]
    rcases ih (min m x.startTime) with heq | ⟨r, hr, heq⟩
    · rcases min_choice m x.startTime with hm | hm
      · exact Or.inl (by rw [heq, hm])
      · exact Or.inr ⟨x, List.mem_cons_self x t, by rw [heq, hm]⟩
    · exact Or.inr ⟨r, List.mem_cons_of_mem x hr, heq⟩

theorem le_foldl_max_init (xs : List TimeMeasured) :
    ∀ m : Int, m ≤ xs.foldl (fun a i => max a (i.startTime + i.duration)) m := by
  induction xs with
  | nil => intro m; exact le_refl m
  | cons x t ih =>
    intro m
    simp only [List.foldl_cons]
    exact le_trans (le_max_left m (x.startTime + x.duration))
      (ih (max m (x.startTime + x.duration)))

theorem toCucumberTimestamp_mono (a b : Int) (h : a ≤ b) :
    tsLe (toCucumberTimestamp a) (toCucumberTimestamp b) := by
  simp only [toCucumberTimestamp, tsLe]
  omega

/-- C8: the report's testRunStarted timestamp is the full-result timing's
start and testRunFinished is, in every case, that start plus the duration;
when the host supplies no explicit timing and at least one run was recorded,
that start is exactly the earliest start time among the recorded runs (a
lower bound that is attained) and the derived duration is non-negative
whenever every run's duration is; whenever the duration is non-negative the
finished timestamp does not precede the started one. -/
theorem test_run_timing_bounds (collab : Collab) (fullResult : FullResult)
    (runs : List TestCaseRun) :
    ((doBuildMessages collab fullResult runs).testRunStarted =
        some (toCucumberTimestamp (getFullResultTiming fullResult runs).startTime) ∧
      (doBuildMessages collab fullResult runs).testRunFinished =
        some (fullResult.status == Status.passed,
          toCucumberTimestamp
            ((getFullResultTiming fullResult runs).startTime +
             (getFullResultTiming fullResult runs).duration))) ∧
    (fullResult.timing = none → runs ≠ [] →
      (∀ r ∈ runs, (getFullResultTiming fullResult runs).startTime ≤ r.result.startTime) ∧
      (∃ r ∈ runs, (getFullResultTiming fullResult runs).startTime = r.result.startTime) ∧
      ((∀ r ∈ runs, 0 ≤ r.result.duration) →
        0 ≤ (getFullResultTiming fullResult runs).duration)) ∧
    (0 ≤ (getFullResultTiming fullResult runs).duration →
      tsLe (toCucumberTimestamp (getFullResultTiming fullResult runs).startTime)
        (toCucumberTimestamp
          ((getFullResultTiming fullResult runs).startTime +
           (getFullResultTiming fullResult runs).duration))) := by
  refine ⟨⟨rfl, rfl⟩, ?_, ?_⟩
  · intro hnone hne
    rcases List.exists_cons_of_ne_nil hne with ⟨r0, rest, rfl⟩
    have htiming : getFullResultTiming fullResult (r0 :: rest) =
        calcMinMaxByArray (r0.result :: rest.map (fun r => r.result)) := by
      unfold getFullResultTiming
      rw [hnone]
      rfl
    have hcalc : (calcMinMaxByArray (r0.result :: rest.map (fun r => r.result))).startTime =
        (rest.map (fun r => r.result)).foldl (fun m i => min m i.startTime)
          r0.result.startTime := rfl
    refine ⟨?_, ?_, ?_⟩
    · intro r hr
      rw [htiming, hcalc]
      rcases List.mem_cons.mp hr with rfl | hmem
      · exact foldl_min_le_init _ _
      · exact foldl_min_le_mem _ r.result (List.mem_map_of_mem (fun r => r.result) hmem) _
    · rw [htiming, hcalc]
      rcases foldl_min_eq_init_or_mem (rest.map (fun r => r.result)) r0.result.startTime
        with heq | ⟨x, hx, heq⟩
      · exact ⟨r0, List.mem_cons_self r0 rest, heq⟩
      · rcases List.mem_map.mp hx with ⟨r, hr, rfl⟩
        exact ⟨r, List.mem_cons_of_mem r0 hr, heq⟩
    · intro hdur
      rw [htiming]
      have hdur0 : 0 ≤ r0.result.duration := hdur r0 (List.mem_cons_self r0 rest)
      have h1 : (rest.map (fun r => r.result)).foldl (fun m i => min m i.startTime)
          r0.result.startTime ≤ r0.result.startTime := foldl_min_le_init _ _
      have h2 : r0.result.startTime + r0.result.duration ≤
          (rest.map (fun r => r.result)).foldl (fun m i => max m (i.startTime + i.duration))
            (r0.result.startTime + r0.result.duration) := le_foldl_max_init _ _
      show (0 : Int) ≤ _ - _
      omega
  · intro hdur
    exact toCucumberTimestamp_mono _ _ (by omega)

end PlaywrightBdd
